import Mathlib

/-!
Verification of the event-coincidence core of
`magicctapipe/scripts/lst1_magic/lst1_magic_event_coincidence.py`
(function `event_coincidence`).

The code is shallowly embedded over exact arithmetic: integer-nanosecond
timestamps are `Int`; the numpy float means, weighted averages and
`np.round` (round half to even) are modelled as exact fractions carried
as integer numerator/denominator pairs, with `ℚ`-valued forms used in
theorem statements; pandas data frames are lists of records.  Line
numbers in doc comments refer to `lst1_magic_event_coincidence.py`.
-/

namespace EventCoincidence

/-! ### Coincidence test and offset scan -/

/-- Edge-inclusive coincidence test for one (primary, secondary) pair of
nanosecond timestamps, as applied by lines 220-227 (offset scan) and
264-270 (final re-check): `t1 + o - w ≤ t2 ∧ t2 ≤ t1 + o + w`. -/
def coincidentB (w o t1 t2 : ℤ) : Bool :=
  decide (t1 + o - w ≤ t2) && decide (t2 ≤ t1 + o + w)

/-- Number of `true` cells of the N1×N2 boolean coincidence matrix at one
offset (`np.count_nonzero(mask)`, lines 220-228). -/
def nCoincidence (w o : ℤ) (tsLst tsMagic : List ℤ) : ℕ :=
  (tsLst.map fun t1 => (tsMagic.filter fun t2 => coincidentB w o t1 t2).length).sum

/-- Candidate offset grid (lines 142-148): `np.arange` from the rounded
configured start to the rounded configured stop (exclusive) with the
fixed step `TIME_ACCURACY = 100` ns. -/
def timeOffsets (start stop : ℤ) : List ℤ :=
  (List.range ((stop - start + 99) / 100).toNat).map fun k : ℕ => start + 100 * (k : ℤ)

/-- Maximum of the per-offset coincidence counts
(`n_coincidences.max()`, line 244). -/
def maxCount (w : ℤ) (offs tsLst tsMagic : List ℤ) : ℕ :=
  (offs.map fun o => nCoincidence w o tsLst tsMagic).foldr max 0

/-- Offsets attaining the maximal count
(`time_offsets[n_coincidences == n_coincidences.max()]`, line 244). -/
def maxOffsets (w : ℤ) (offs tsLst tsMagic : List ℤ) : List ℤ :=
  offs.filter fun o => decide (nCoincidence w o tsLst tsMagic = maxCount w offs tsLst tsMagic)

/-! ### Exact rounding and means -/

/-- Rounding half to even of the fraction `a / b` (for `0 < b`), computed
on integers; this is the exact content of `np.round` and of numpy scalar
`.round()` applied to the exact value. -/
def roundHalfEvenFrac (a b : ℤ) : ℤ :=
  if 2 * (a - Int.fdiv a b * b) < b then Int.fdiv a b
  else if b < 2 * (a - Int.fdiv a b * b) then Int.fdiv a b + 1
  else if Int.fdiv a b % 2 = 0 then Int.fdiv a b else Int.fdiv a b + 1

/-- Rounding half to even of an exact rational, used in statements. -/
def roundHalfEvenQ (q : ℚ) : ℤ :=
  if Int.fract q < 1 / 2 then ⌊q⌋
  else if 1 / 2 < Int.fract q then ⌊q⌋ + 1
  else if 2 ∣ ⌊q⌋ then ⌊q⌋ else ⌊q⌋ + 1

/-- Exact rational mean of a list of integers (numpy `.mean()`), used in
statements. -/
def listMeanZ (l : List ℤ) : ℚ :=
  (l.map fun x : ℤ => (x : ℚ)).sum / l.length

/-- The chosen `offset_at_max` (line 244): mean of the maximizing
offsets, as an exact rational. -/
def offsetAtMax (w : ℤ) (offs tsLst tsMagic : List ℤ) : ℚ :=
  listMeanZ (maxOffsets w offs tsLst tsMagic)

/-! ### Offset refinement (lines 250-259) -/

/-- Lower edge of the averaging neighbourhood:
`np.round(offset_at_max - 2 * window_half_width)` (lines 250-253),
computed exactly as `round((sum - 2w·n) / n)` over the maximizing
offsets. -/
def refineLo (w : ℤ) (offs tsLst tsMagic : List ℤ) : ℤ :=
  roundHalfEvenFrac
    ((maxOffsets w offs tsLst tsMagic).sum - 2 * w * (maxOffsets w offs tsLst tsMagic).length)
    (maxOffsets w offs tsLst tsMagic).length

/-- Upper edge of the averaging neighbourhood:
`np.round(offset_at_max + 2 * window_half_width)` (lines 251-254). -/
def refineHi (w : ℤ) (offs tsLst tsMagic : List ℤ) : ℤ :=
  roundHalfEvenFrac
    ((maxOffsets w offs tsLst tsMagic).sum + 2 * w * (maxOffsets w offs tsLst tsMagic).length)
    (maxOffsets w offs tsLst tsMagic).length

/-- The offsets retained for the weighted average (`time_offsets[mask]`,
lines 253-256): grid offsets between the rounded neighbourhood edges. -/
def refineOffsets (w : ℤ) (offs tsLst tsMagic : List ℤ) : List ℤ :=
  offs.filter fun o =>
    decide (refineLo w offs tsLst tsMagic ≤ o) && decide (o ≤ refineHi w offs tsLst tsMagic)

/-- Total weight of the averaging neighbourhood, the denominator of
`np.average(time_offsets[mask], weights=n_coincidences[mask])` (line
258); `np.average` raises `ZeroDivisionError` when it is zero. -/
def refineWeightSum (w : ℤ) (offs tsLst tsMagic : List ℤ) : ℕ :=
  ((refineOffsets w offs tsLst tsMagic).map fun o => nCoincidence w o tsLst tsMagic).sum

/-- Numerator of the count-weighted average of the retained offsets. -/
def refineDot (w : ℤ) (offs tsLst tsMagic : List ℤ) : ℤ :=
  ((refineOffsets w offs tsLst tsMagic).map fun o =>
    (nCoincidence w o tsLst tsMagic : ℤ) * o).sum

/-- The refined offset (`average_offset`, lines 258-259): the
count-weighted mean of the retained offsets, rounded half to even. -/
def refinedOffset (w : ℤ) (offs tsLst tsMagic : List ℤ) : ℤ :=
  roundHalfEvenFrac (refineDot w offs tsLst tsMagic) (refineWeightSum w offs tsLst tsMagic)

/-! ### Window pre-filter (lines 188-204) -/

/-- Retention test of the pre-filter (lines 188-194): the secondary
timestamp lies in the closed interval from
`timestamps_lst[0] + time_offsets[0] - window` to
`timestamps_lst[-1] + time_offsets[-1] + window`. -/
def prefilterKeep (w : ℤ) (tsLst offs : List ℤ) (t2 : ℤ) : Bool :=
  decide (tsLst.headI + offs.headI - w ≤ t2) &&
    decide (t2 ≤ tsLst.getLastI + offs.getLastI + w)

/-- The pre-filtered secondary timestamps (`timestamps_magic[mask]`,
line 204). -/
def prefilter (w : ℤ) (tsLst offs tsMagic : List ℤ) : List ℤ :=
  tsMagic.filter (prefilterKeep w tsLst offs)

/-! ### Event records and per-telescope processing -/

/-- A primary-stream (LST-1) event: its run and event identifiers and
its exact integer-nanosecond timestamp. -/
structure LstEvent where
  obsId : ℤ
  eventId : ℤ
  time : ℤ
deriving DecidableEq

/-- A secondary-stream (MAGIC) event of one telescope: its run and event
identifiers and its exact integer-nanosecond timestamp. -/
structure MagicEvent where
  obsId : ℤ
  eventId : ℤ
  time : ℤ
deriving DecidableEq

/-- A row of the merged event table.  The index levels are
`(obs_id_magic, event_id_magic, tel_id)` (lines 290 and the MAGIC frame
index); the data columns are the cross-referenced primary identifiers
(`obs_id_lst` / `event_id_lst`, missing = `none`) and the timestamp
payload, modelled by the exact nanosecond value. -/
structure Row where
  obsIdMagic : ℤ
  eventIdMagic : ℤ
  telId : ℤ
  obsIdLst : Option ℤ
  eventIdLst : Option ℤ
  timestamp : ℤ
deriving DecidableEq

/-- The non-index columns of a row, the key compared by
`drop_duplicates` (line 334), which ignores the index. -/
def Row.cols (r : Row) : Option ℤ × Option ℤ × ℤ :=
  (r.obsIdLst, r.eventIdLst, r.timestamp)

/-- All matched (primary, secondary) event pairs at one offset, in the
row-major order of `np.where(mask)` (line 280). -/
def matchedPairs (w o : ℤ) (lst : List LstEvent) (magic : List MagicEvent) :
    List (LstEvent × MagicEvent) :=
  lst.flatMap fun e1 =>
    (magic.filter fun e2 => coincidentB w o e1.time e2.time).map fun e2 => (e1, e2)

/-- The primary event whose identifiers a matched secondary event ends
up carrying (lines 294-298): the `.loc` assignment walks the matched
pairs in row-major order, so for a secondary event matched more than
once the last matching primary event wins. -/
def lastLstMatch (w o : ℤ) (lst : List LstEvent) (e2 : MagicEvent) : Option LstEvent :=
  (lst.filter fun e1 => coincidentB w o e1.time e2.time).getLast?

/-- The primary-side rows of one telescope combination (lines 280-290):
one row per matched pair, indexed by the matched secondary identifiers
and the fixed primary telescope id 1, carrying the primary identifiers
as columns. -/
def lstRows (w o : ℤ) (lst : List LstEvent) (magic : List MagicEvent) : List Row :=
  (matchedPairs w o lst magic).map fun p =>
    { obsIdMagic := p.2.obsId, eventIdMagic := p.2.eventId, telId := 1,
      obsIdLst := some p.1.obsId, eventIdLst := some p.1.eventId,
      timestamp := p.1.time }

/-- The secondary-side rows of one telescope (lines 292-298): every
pre-filtered secondary event, carrying the identifiers of its (last)
matching primary event, or missing values if unmatched. -/
def magicRows (w o telId : ℤ) (lst : List LstEvent) (magic : List MagicEvent) : List Row :=
  magic.map fun e2 =>
    match lastLstMatch w o lst e2 with
    | some e1 =>
        { obsIdMagic := e2.obsId, eventIdMagic := e2.eventId, telId := telId,
          obsIdLst := some e1.obsId, eventIdLst := some e1.eventId, timestamp := e2.time }
    | none =>
        { obsIdMagic := e2.obsId, eventIdMagic := e2.eventId, telId := telId,
          obsIdLst := none, eventIdLst := none, timestamp := e2.time }

/-- Outcome of processing one telescope in the main loop (lines
171-327). -/
inductive TelOutcome where
  /-- No pre-filtered secondary events: `continue` at line 199. -/
  | skipNoOverlap : TelOutcome
  /-- All scan counts zero: `continue` at line 238. -/
  | skipNoCoincidence : TelOutcome
  /-- An uncaught exception: empty primary stream or offset grid
  (`IndexError` at line 188), or all weights zero in `np.average`
  (`ZeroDivisionError` at line 258). -/
  | crash : TelOutcome
  /-- Normal completion with the rows appended to the merged table
  (line 325). -/
  | rows : List Row → TelOutcome
deriving DecidableEq

/-- Processing of one telescope (loop body, lines 171-327): pre-filter,
offset scan, refinement, final matching, row construction. -/
def processTel (w start stop : ℤ) (lst : List LstEvent) (telId : ℤ)
    (magic : List MagicEvent) : TelOutcome :=
  if lst.isEmpty ∨ (timeOffsets start stop).isEmpty then .crash
  else if (magic.filter fun e2 =>
      prefilterKeep w (lst.map LstEvent.time) (timeOffsets start stop) e2.time).isEmpty then
    .skipNoOverlap
  else if maxCount w (timeOffsets start stop) (lst.map LstEvent.time)
      ((magic.filter fun e2 =>
        prefilterKeep w (lst.map LstEvent.time) (timeOffsets start stop) e2.time).map
        MagicEvent.time) = 0 then
    .skipNoCoincidence
  else if refineWeightSum w (timeOffsets start stop) (lst.map LstEvent.time)
      ((magic.filter fun e2 =>
        prefilterKeep w (lst.map LstEvent.time) (timeOffsets start stop) e2.time).map
        MagicEvent.time) = 0 then
    .crash
  else
    .rows
      (lstRows w
        (refinedOffset w (timeOffsets start stop) (lst.map LstEvent.time)
          ((magic.filter fun e2 =>
            prefilterKeep w (lst.map LstEvent.time) (timeOffsets start stop) e2.time).map
            MagicEvent.time))
        lst
        (magic.filter fun e2 =>
          prefilterKeep w (lst.map LstEvent.time) (timeOffsets start stop) e2.time) ++
       magicRows w
        (refinedOffset w (timeOffsets start stop) (lst.map LstEvent.time)
          ((magic.filter fun e2 =>
            prefilterKeep w (lst.map LstEvent.time) (timeOffsets start stop) e2.time).map
            MagicEvent.time))
        telId lst
        (magic.filter fun e2 =>
          prefilterKeep w (lst.map LstEvent.time) (timeOffsets start stop) e2.time))

/-! ### Merged-table assembly (lines 325-357) -/

/-- Lexicographic order on the `(obs_id_magic, event_id_magic, tel_id)`
index, used by `sort_index` (line 333). -/
def rowIdxLe (a b : Row) : Bool :=
  decide (a.obsIdMagic < b.obsIdMagic) ||
    (decide (a.obsIdMagic = b.obsIdMagic) &&
      (decide (a.eventIdMagic < b.eventIdMagic) ||
        (decide (a.eventIdMagic = b.eventIdMagic) && decide (a.telId ≤ b.telId))))

/-- Sort of the merged rows by index (`sort_index`, line 333).  Rows
with equal index keys are left in concatenation order; `sort_index`
itself (quicksort) fixes no order on ties, and no statement below
depends on the tie order. -/
def sortRows (rows : List Row) : List Row :=
  List.insertionSort (fun a b => rowIdxLe a b = true) rows

/-- Removal of duplicate rows (`drop_duplicates`, line 334): the first
occurrence of each column tuple is kept; the index is not compared. -/
def dedupByCols (rows : List Row) : List Row :=
  rows.foldl (fun acc r => if acc.any fun x => decide (x.cols = r.cols) then acc else acc ++ [r]) []

/-- Rows of the group of `r` under the grouping by
`(obs_id_magic, event_id_magic)` (line 345). -/
def groupOf (rows : List Row) (r : Row) : List Row :=
  rows.filter fun x =>
    decide (x.obsIdMagic = r.obsIdMagic) && decide (x.eventIdMagic = r.eventIdMagic)

/-- Sum of the non-missing cross-referenced primary run identifiers of a
group (`groupby(...).mean()` skips missing values, line 345). -/
def groupObsSum (g : List Row) : ℤ :=
  (g.filterMap Row.obsIdLst).sum

/-- Number of non-missing cross-referenced primary run identifiers of a
group. -/
def groupObsCnt (g : List Row) : ℕ :=
  (g.filterMap Row.obsIdLst).length

/-- Sum of the non-missing cross-referenced primary event identifiers of
a group. -/
def groupEvSum (g : List Row) : ℤ :=
  (g.filterMap Row.eventIdLst).sum

/-- Number of non-missing cross-referenced primary event identifiers of
a group. -/
def groupEvCnt (g : List Row) : ℕ :=
  (g.filterMap Row.eventIdLst).length

/-- A row of the final table (after lines 345-357): the resolved
`(obs_id, event_id)` key, carried as an exact fraction
(numerator, denominator) pair since the group mean of the primary
identifiers need not be an integer, the telescope id, and the data
columns. -/
structure FinalRow where
  obsIdN : ℤ
  obsIdD : ℕ
  eventIdN : ℤ
  eventIdD : ℕ
  telId : ℤ
  obsIdLst : Option ℤ
  eventIdLst : Option ℤ
  timestamp : ℤ
deriving DecidableEq

/-- The resolved run identifier of a final row, as an exact rational. -/
def FinalRow.obsId (r : FinalRow) : ℚ :=
  (r.obsIdN : ℚ) / (r.obsIdD : ℚ)

/-- The resolved event identifier of a final row, as an exact
rational. -/
def FinalRow.eventId (r : FinalRow) : ℚ :=
  (r.eventIdN : ℚ) / (r.eventIdD : ℚ)

/-- Resolution of the final `(obs_id, event_id)` key of one row (lines
345-353): the group mean of the cross-referenced primary identifiers;
when the group has none (`isna`, line 350), the secondary identifiers of
the row's own index are used instead. -/
def resolveRow (rows : List Row) (r : Row) : FinalRow :=
  if groupObsCnt (groupOf rows r) = 0 then
    { obsIdN := r.obsIdMagic, obsIdD := 1, eventIdN := r.eventIdMagic, eventIdD := 1,
      telId := r.telId, obsIdLst := r.obsIdLst, eventIdLst := r.eventIdLst,
      timestamp := r.timestamp }
  else
    { obsIdN := groupObsSum (groupOf rows r), obsIdD := groupObsCnt (groupOf rows r),
      eventIdN := groupEvSum (groupOf rows r), eventIdD := groupEvCnt (groupOf rows r),
      telId := r.telId, obsIdLst := r.obsIdLst, eventIdLst := r.eventIdLst,
      timestamp := r.timestamp }

/-- The final event table (lines 333-357): sort by index, drop duplicate
column tuples, resolve the `(obs_id, event_id)` key of every remaining
row. -/
def finalTable (rows : List Row) : List FinalRow :=
  let d := dedupByCols (sortRows rows)
  d.map (resolveRow d)

/-- Concatenation of the per-telescope rows over the telescope loop
(line 325), for the telescopes that complete normally. -/
def mergedRows (w start stop : ℤ) (lst : List LstEvent)
    (tels : List (ℤ × List MagicEvent)) : List Row :=
  tels.flatMap fun t =>
    match processTel w start stop lst t.1 t.2 with
    | .rows rs => rs
    | _ => []

/-- Overall outcome of the run (lines 171-399). -/
inductive RunResult where
  /-- An uncaught exception terminated the process abnormally. -/
  | crash : RunResult
  /-- `sys.exit()` at line 331: a clean exit with status 0, before any
  output file is created. -/
  | noCoincidence : RunResult
  /-- Normal completion with the final table written out. -/
  | output : List FinalRow → RunResult
deriving DecidableEq

/-- The telescope loop followed by the empty-table check (lines 171-331)
and the merged-table assembly. -/
def runCoincidence (w start stop : ℤ) (lst : List LstEvent)
    (tels : List (ℤ × List MagicEvent)) : RunResult :=
  if tels.any fun t => decide (processTel w start stop lst t.1 t.2 = .crash) then .crash
  else if (mergedRows w start stop lst tels).isEmpty then .noCoincidence
  else .output (finalTable (mergedRows w start stop lst tels))

/-! ### Timestamp normalization (lines 164-166 and 176-180) -/

/-- A decimal timestamp literal in seconds: an integer significand and a
number of fractional digits; its exact value is `sig / 10 ^ frac`
seconds.  This is the content of the Python `Decimal` built from the
textual timestamp. -/
structure DecTimestamp where
  sig : ℤ
  frac : ℕ
deriving DecidableEq

/-- The exact value in seconds of a decimal timestamp. -/
def DecTimestamp.valSec (d : DecTimestamp) : ℚ :=
  (d.sig : ℚ) / 10 ^ d.frac

/-- The LST timestamp normalizer (lines 164-166): exact `Decimal`
multiplication by `1e9` followed by the `int` cast, which truncates
toward zero (exactly only when more than 9 fractional digits are
present; for at most 9 the product is an integer). -/
def lstTimestampNs (d : DecTimestamp) : ℤ :=
  if d.frac ≤ 9 then d.sig * 10 ^ (9 - d.frac)
  else Int.tdiv d.sig (10 ^ (d.frac - 9))

/-- The MAGIC timestamp normalizer (lines 176-180): integer seconds
scaled by `10^9` plus the integer nanosecond remainder, computed on
exact integers. -/
def magicTimestampNs (sec nsec : ℤ) : ℤ :=
  sec * 10 ^ 9 + nsec

/-- Rounding of an exact rational to the nearest IEEE-754 binary64
value, specialised to the binade `[2^30, 2^31)` where the unit in the
last place is `2^-22`.  This models the binary-float parsing step of the
naive float path that the code avoids. -/
def nearestBinary64In2pow30 (q : ℚ) : ℚ :=
  (round (q * 2 ^ 22) : ℚ) / 2 ^ 22

/-! ### Helper lemmas -/

theorem coincidentB_iff (w o t1 t2 : ℤ) :
    coincidentB w o t1 t2 = true ↔ t1 + o - w ≤ t2 ∧ t2 ≤ t1 + o + w := by
  simp [coincidentB]

theorem le_foldrMax {l : List ℕ} {x : ℕ} (h : x ∈ l) : x ≤ l.foldr max 0 := by
  induction l with
  | nil => cases h
  | cons a t ih =>
    rcases List.mem_cons.mp h with rfl | ht
    · exact le_max_left _ _
    · exact (ih ht).trans (le_max_right _ _)

theorem foldrMax_zero_or_mem (l : List ℕ) : l.foldr max 0 = 0 ∨ l.foldr max 0 ∈ l := by
  induction l with
  | nil => exact Or.inl rfl
  | cons a t ih =>
    rcases le_total a (t.foldr max 0) with hle | hle
    · rw [List.foldr_cons, max_eq_right hle]
      rcases ih with h0 | hm
      · exact Or.inl h0
      · exact Or.inr (List.mem_cons_of_mem _ hm)
    · rw [List.foldr_cons, max_eq_left hle]
      exact Or.inr (List.mem_cons_self a t)

theorem nCoincidence_le_maxCount {w : ℤ} {offs tsLst tsMagic : List ℤ} {o : ℤ}
    (h : o ∈ offs) :
    nCoincidence w o tsLst tsMagic ≤ maxCount w offs tsLst tsMagic :=
  le_foldrMax (List.mem_map_of_mem _ h)

theorem mem_maxOffsets_iff {w : ℤ} {offs tsLst tsMagic : List ℤ} {o : ℤ} :
    o ∈ maxOffsets w offs tsLst tsMagic ↔
      o ∈ offs ∧ ∀ p ∈ offs, nCoincidence w p tsLst tsMagic ≤ nCoincidence w o tsLst tsMagic := by
  constructor
  · intro h
    obtain ⟨ho, hd⟩ := List.mem_filter.mp h
    have he : nCoincidence w o tsLst tsMagic = maxCount w offs tsLst tsMagic :=
      of_decide_eq_true hd
    exact ⟨ho, fun p hp => he ▸ nCoincidence_le_maxCount hp⟩
  · rintro ⟨ho, hall⟩
    refine List.mem_filter.mpr ⟨ho, decide_eq_true ?_⟩
    refine le_antisymm (nCoincidence_le_maxCount ho) ?_
    rcases foldrMax_zero_or_mem (offs.map fun p => nCoincidence w p tsLst tsMagic) with h0 | hm
    · rw [maxCount, h0]
      exact Nat.zero_le _
    · obtain ⟨p, hp, he⟩ := List.mem_map.mp hm
      rw [maxCount, ← he]
      exact hall p hp

theorem timeOffsets_ne_nil_iff (start stop : ℤ) : timeOffsets start stop ≠ [] ↔ start < stop := by
  rw [timeOffsets]
  simp only [ne_eq, List.map_eq_nil_iff, List.range_eq_nil]
  omega

theorem timeOffsets_headI (start stop : ℤ) (h : start < stop) :
    (timeOffsets start stop).headI = start := by
  have hn : ((stop - start + 99) / 100).toNat = (((stop - start + 99) / 100).toNat - 1) + 1 := by
    omega
  rw [timeOffsets, hn, List.range_succ_eq_map]
  simp

theorem timeOffsets_getLastI (start stop : ℤ) (h : start < stop) :
    (timeOffsets start stop).getLastI = start + 100 * ((stop - start + 99) / 100 - 1) := by
  have hn : ((stop - start + 99) / 100).toNat = (((stop - start + 99) / 100).toNat - 1) + 1 := by
    omega
  rw [timeOffsets, hn, List.range_succ, List.map_append, List.map_cons, List.map_nil,
    List.getLastI_eq_getLast?, List.getLast?_concat]
  simp only [Option.iget_some]
  omega

/-! ### Claim theorems -/

/-- C1: a secondary event at `t2` is counted as coincident with a primary
event at `t1` under offset `o` and half-width `w` iff
`t1 + o - w ≤ t2 ≤ t1 + o + w`; both edges match (for `0 ≤ w`), and one
nanosecond beyond either edge does not. -/
theorem coincidence_window_edge_inclusive (w o t1 t2 : ℤ) :
    (coincidentB w o t1 t2 = true ↔ t1 + o - w ≤ t2 ∧ t2 ≤ t1 + o + w) ∧
    (0 ≤ w →
      coincidentB w o t1 (t1 + o - w) = true ∧
      coincidentB w o t1 (t1 + o + w) = true) ∧
    coincidentB w o t1 (t1 + o - w - 1) = false ∧
    coincidentB w o t1 (t1 + o + w + 1) = false := by
  refine ⟨coincidentB_iff w o t1 t2, fun hw => ⟨?_, ?_⟩, ?_, ?_⟩ <;>
    simp only [coincidentB, Bool.and_eq_true, decide_eq_true_eq,
      Bool.and_eq_false_iff, decide_eq_false_iff_not] <;> omega

/-- Closed instance of `coincidence_window_edge_inclusive` at `w = 300`,
`o = -6500`, `t1 = 0`: the event exactly at the lower window edge
matches, the event one nanosecond below it does not. -/
theorem coincidence_window_edge_inclusive_witness :
    (coincidentB 300 (-6500) 0 (-6500) = true ↔
      (0 : ℤ) + -6500 - 300 ≤ -6500 ∧ (-6500 : ℤ) ≤ 0 + -6500 + 300) ∧
    coincidentB 300 (-6500) 0 ((0 : ℤ) + -6500 - 300) = true ∧
    coincidentB 300 (-6500) 0 ((0 : ℤ) + -6500 - 300 - 1) = false :=
  ⟨(coincidence_window_edge_inclusive 300 (-6500) 0 (-6500)).1,
    ((coincidence_window_edge_inclusive 300 (-6500) 0 0).2.1 (by decide)).1,
    (coincidence_window_edge_inclusive 300 (-6500) 0 0).2.2.1⟩

/-- C3: the scanner's chosen offset-at-max equals the arithmetic mean of
exactly the offsets attaining the maximal coincidence count (not the
first and not the last of them); with a unique maximizing offset it is
that offset itself. -/
theorem offset_at_max_tie_break (w : ℤ) (offs tsLst tsMagic : List ℤ) :
    (∀ o : ℤ, o ∈ maxOffsets w offs tsLst tsMagic ↔
      o ∈ offs ∧ ∀ p ∈ offs, nCoincidence w p tsLst tsMagic ≤ nCoincidence w o tsLst tsMagic) ∧
    offsetAtMax w offs tsLst tsMagic =
      ((maxOffsets w offs tsLst tsMagic).map fun o : ℤ => (o : ℚ)).sum /
        ((maxOffsets w offs tsLst tsMagic).length : ℚ) ∧
    ∀ o : ℤ, maxOffsets w offs tsLst tsMagic = [o] →
      offsetAtMax w offs tsLst tsMagic = o := by
  refine ⟨fun o => mem_maxOffsets_iff, rfl, fun o h => ?_⟩
  rw [offsetAtMax, h, listMeanZ]
  simp

/-- Closed instance of `offset_at_max_tie_break`: the offsets 0 and
200 ns tie at the maximal count and the scanner's choice is their
arithmetic mean 100 ns, which is neither the first nor the last of
them. -/
theorem offset_at_max_tie_break_witness :
    ((0 : ℤ) ∈ maxOffsets 50 (timeOffsets 0 300) [0] [0, 200] ↔
      (0 : ℤ) ∈ timeOffsets 0 300 ∧ ∀ p ∈ timeOffsets 0 300,
        nCoincidence 50 p [0] [0, 200] ≤ nCoincidence 50 0 [0] [0, 200]) ∧
    maxOffsets 50 (timeOffsets 0 300) [0] [0, 200] = [0, 200] ∧
    offsetAtMax 50 (timeOffsets 0 300) [0] [0, 200] = 100 ∧
    (100 : ℚ) ≠ 0 ∧ (100 : ℚ) ≠ 200 := by
  refine ⟨(offset_at_max_tie_break 50 (timeOffsets 0 300) [0] [0, 200]).1 0, by decide, ?_,
    by norm_num, by norm_num⟩
  have h : maxOffsets 50 (timeOffsets 0 300) [0] [0, 200] = [0, 200] := by decide
  rw [offsetAtMax, h, listMeanZ]
  norm_num

/-- C2: for a decimal timestamp with at most 7 fractional digits the LST
normalizer yields exactly `round(Decimal(s) * 1e9)` through the exact
decimal path; the MAGIC fields combine exactly as
`seconds * 10^9 + nanoseconds`; and on `"1620000000.1234567"` the naive
binary-float path yields a different nanosecond integer, so the
float-free path is essential. -/
theorem timestamp_normalizer_exact (d : DecTimestamp) (hd : d.frac ≤ 7) (sec nsec : ℤ) :
    lstTimestampNs d = round (d.valSec * 10 ^ 9) ∧
    (magicTimestampNs sec nsec : ℚ) = (sec : ℚ) * 10 ^ 9 + (nsec : ℚ) ∧
    lstTimestampNs ⟨16200000001234567, 7⟩ = 1620000000123456700 ∧
    round (nearestBinary64In2pow30 ((16200000001234567 : ℚ) / 10 ^ 7) * 10 ^ 9) ≠
      round (((16200000001234567 : ℚ) / 10 ^ 7) * 10 ^ 9) := by
  have h9 : d.frac ≤ 9 := hd.trans (by norm_num)
  refine ⟨?_, ?_, by decide, ?_⟩
  · have hpow : (10 : ℚ) ^ 9 = 10 ^ d.frac * 10 ^ (9 - d.frac) := by
      rw [← pow_add]
      congr 1
      omega
    have hval : d.valSec * 10 ^ 9 = ((d.sig * 10 ^ (9 - d.frac) : ℤ) : ℚ) := by
      rw [DecTimestamp.valSec, hpow]
      have hne : (10 : ℚ) ^ d.frac ≠ 0 := by positivity
      push_cast
      field_simp
      ring
    rw [hval, round_intCast, lstTimestampNs, if_pos h9]
  · rw [magicTimestampNs]
    push_cast
    ring
  · have h1 : round (((16200000001234567 : ℚ) / 10 ^ 7) * 2 ^ 22) = 6794772480517815 := by
      rw [round_eq]
      norm_num
    have h2 : round (((6794772480517815 : ℤ) : ℚ) / 2 ^ 22 * 10 ^ 9) = 1620000000123456717 := by
      rw [round_eq]
      norm_num
    have h3 : round (((16200000001234567 : ℚ) / 10 ^ 7) * 10 ^ 9) = 1620000000123456700 := by
      rw [round_eq]
      norm_num
    rw [nearestBinary64In2pow30, h1, h3]
    norm_num at h2 ⊢
    rw [h2]
    norm_num

/-- Closed instance of `timestamp_normalizer_exact` at the decimal
string value `1620000000.1234567` (7 fractional digits). -/
theorem timestamp_normalizer_exact_witness :
    lstTimestampNs ⟨16200000001234567, 7⟩ =
      round (DecTimestamp.valSec ⟨16200000001234567, 7⟩ * 10 ^ 9) :=
  (timestamp_normalizer_exact ⟨16200000001234567, 7⟩ (by decide) 0 0).1

/-- C5 counterexample: with primary timestamps `[0]`, configured scan
bounds start = 0 and stop = 1000 (grid 0, 100, …, 900) and window 300,
the secondary event at 1250 lies inside the interval built from the
configured bounds, `[0 + 0 - 300, 0 + 1000 + 300]`, but is dropped: the
code's upper bound uses the last grid offset 900 (the stop bound is
exclusive), giving 1200. -/
theorem prefilter_configured_bounds_counterexample :
    prefilter 300 [0] (timeOffsets 0 1000) [1250] = [] ∧
    (0 : ℤ) + 0 - 300 ≤ 1250 ∧ (1250 : ℤ) ≤ 0 + 1000 + 300 ∧
    (timeOffsets 0 1000).getLastI = 900 := by
  refine ⟨by decide, by decide, by decide, by decide⟩

/-- C5 amended: the pre-filter retains exactly the secondary events in
the closed interval built from the first and last candidate offsets of
the scan grid (the grid starts at the configured start and stops one
step short of the exclusive configured stop); if no secondary event
survives, the telescope is skipped without error and the loop continues
as if that telescope were absent. -/
theorem prefilter_retains_grid_interval (w start stop : ℤ) (tsLst tsMagic : List ℤ)
    (t2 : ℤ) :
    (t2 ∈ prefilter w tsLst (timeOffsets start stop) tsMagic ↔
      t2 ∈ tsMagic ∧
        tsLst.headI + (timeOffsets start stop).headI - w ≤ t2 ∧
        t2 ≤ tsLst.getLastI + (timeOffsets start stop).getLastI + w) ∧
    (start < stop →
      (timeOffsets start stop).headI = start ∧
      stop - 100 ≤ (timeOffsets start stop).getLastI ∧
      (timeOffsets start stop).getLastI < stop) ∧
    ∀ (lst : List LstEvent) (telId : ℤ) (magic : List MagicEvent)
      (rest : List (ℤ × List MagicEvent)),
      lst ≠ [] → start < stop →
      (magic.filter fun e2 =>
        prefilterKeep w (lst.map LstEvent.time) (timeOffsets start stop) e2.time) = [] →
      processTel w start stop lst telId magic = .skipNoOverlap ∧
      runCoincidence w start stop lst ((telId, magic) :: rest) =
        runCoincidence w start stop lst rest := by
  refine ⟨?_, ?_, ?_⟩
  · simp [prefilter, List.mem_filter, prefilterKeep, and_assoc]
  · intro h
    refine ⟨timeOffsets_headI start stop h, ?_, ?_⟩ <;>
      rw [timeOffsets_getLastI start stop h] <;> omega
  · intro lst telId magic rest hlst hss hfil
    have hoffs : timeOffsets start stop ≠ [] := (timeOffsets_ne_nil_iff start stop).mpr hss
    have hskip : processTel w start stop lst telId magic = .skipNoOverlap := by
      rw [processTel]
      rw [if_neg (by simp [List.isEmpty_iff, hlst, hoffs])]
      rw [if_pos (by simp [List.isEmpty_iff, hfil])]
    refine ⟨hskip, ?_⟩
    have hmerge : mergedRows w start stop lst ((telId, magic) :: rest) =
        mergedRows w start stop lst rest := by
      rw [mergedRows, mergedRows, List.flatMap_cons, hskip]
      rfl
    have hne : processTel w start stop lst telId magic ≠ TelOutcome.crash := by
      rw [hskip]
      exact fun hcon => TelOutcome.noConfusion hcon
    rw [runCoincidence, runCoincidence, hmerge, List.any_cons, decide_eq_false hne,
      Bool.false_or]

/-- Closed instance of `prefilter_retains_grid_interval`: a telescope
whose only event lies far outside the primary window is skipped and the
run proceeds as if the telescope were absent. -/
theorem prefilter_retains_grid_interval_witness :
    processTel 300 (-10000) 10000 [⟨1, 10, 0⟩] 2 [⟨5, 7, 1000000000⟩] = .skipNoOverlap ∧
    runCoincidence 300 (-10000) 10000 [⟨1, 10, 0⟩] [(2, [⟨5, 7, 1000000000⟩])] =
      runCoincidence 300 (-10000) 10000 [⟨1, 10, 0⟩] [] :=
  (prefilter_retains_grid_interval 300 (-10000) 10000 [] [] 0).2.2
    [⟨1, 10, 0⟩] 2 [⟨5, 7, 1000000000⟩] [] (by decide) (by decide) (by decide)

theorem roundHalfEvenFrac_eq (a : ℤ) (d : ℕ) (hd : 0 < d) :
    roundHalfEvenFrac a (d : ℤ) = roundHalfEvenQ ((a : ℚ) / (d : ℚ)) := by
  have hdz : (0 : ℤ) < (d : ℤ) := by exact_mod_cast hd
  have hdq : (0 : ℚ) < (d : ℚ) := by exact_mod_cast hd
  have hf : Int.fdiv a (d : ℤ) = a / (d : ℤ) := Int.fdiv_eq_ediv a (le_of_lt hdz)
  have hfloor : ⌊(a : ℚ) / (d : ℚ)⌋ = a / (d : ℤ) := Rat.floor_intCast_div_natCast a d
  have hmod : a - a / (d : ℤ) * (d : ℤ) = a % (d : ℤ) := by
    rw [Int.emod_def]
    ring
  have hfract : Int.fract ((a : ℚ) / (d : ℚ)) = ((a % (d : ℤ) : ℤ) : ℚ) / (d : ℚ) := by
    rw [Int.fract, hfloor, Int.emod_def]
    push_cast
    field_simp
  have c1 : (2 * (a - Int.fdiv a (d : ℤ) * (d : ℤ)) < (d : ℤ)) ↔
      (Int.fract ((a : ℚ) / (d : ℚ)) < 1 / 2) := by
    rw [hf, hmod, hfract, div_lt_div_iff₀ hdq two_pos, one_mul]
    conv_lhs => rw [mul_comm]
    exact_mod_cast Iff.rfl
  have c2 : ((d : ℤ) < 2 * (a - Int.fdiv a (d : ℤ) * (d : ℤ))) ↔
      (1 / 2 < Int.fract ((a : ℚ) / (d : ℚ))) := by
    rw [hf, hmod, hfract, div_lt_div_iff₀ two_pos hdq, one_mul]
    conv_lhs => rw [mul_comm]
    exact_mod_cast Iff.rfl
  have c3 : (Int.fdiv a (d : ℤ) % 2 = 0) ↔ (2 ∣ ⌊(a : ℚ) / (d : ℚ)⌋) := by
    rw [hf, hfloor]
    exact Int.dvd_iff_emod_eq_zero.symm
  have hval : Int.fdiv a (d : ℤ) = ⌊(a : ℚ) / (d : ℚ)⌋ := hf.trans hfloor.symm
  rw [roundHalfEvenFrac, roundHalfEvenQ]
  simp only [c1, c2, c3]
  simp only [hval]

theorem roundHalfEvenFrac_one (a : ℤ) : roundHalfEvenFrac a 1 = a := by
  have hf : Int.fdiv a 1 = a := by
    rw [Int.fdiv_eq_ediv a (by norm_num), Int.ediv_one]
  rw [roundHalfEvenFrac, hf]
  norm_num

theorem roundHalfEvenFrac_bounds (a S lo hi : ℤ) (hS : 0 < S)
    (h1 : lo * S ≤ a) (h2 : a ≤ hi * S) :
    lo ≤ roundHalfEvenFrac a S ∧ roundHalfEvenFrac a S ≤ hi := by
  have hf : Int.fdiv a S = a / S := Int.fdiv_eq_ediv a (le_of_lt hS)
  have h0 : 0 ≤ a % S := Int.emod_nonneg a (ne_of_gt hS)
  have hlt : a % S < S := Int.emod_lt_of_pos a hS
  have hdiv : S * (a / S) + a % S = a := Int.ediv_add_emod a S
  have hcm1 : S * lo = lo * S := mul_comm S lo
  have hcm2 : S * hi = hi * S := mul_comm S hi
  have hlof : lo ≤ a / S := by
    by_contra hcon
    push_neg at hcon
    have hstep : S * (a / S + 1) ≤ S * lo :=
      mul_le_mul_of_nonneg_left (Int.add_one_le_iff.mpr hcon) (le_of_lt hS)
    rw [mul_add, mul_one] at hstep
    linarith
  have hfhi : a / S ≤ hi := by
    by_contra hcon
    push_neg at hcon
    have hstep : S * (hi + 1) ≤ S * (a / S) :=
      mul_le_mul_of_nonneg_left (Int.add_one_le_iff.mpr hcon) (le_of_lt hS)
    rw [mul_add, mul_one] at hstep
    linarith
  have hstrict : 0 < a % S → a / S < hi := by
    intro hr
    by_contra hcon
    push_neg at hcon
    have hstep : S * hi ≤ S * (a / S) := mul_le_mul_of_nonneg_left hcon (le_of_lt hS)
    linarith
  have hmod : a - a / S * S = a % S := by
    rw [Int.emod_def]
    ring
  rw [roundHalfEvenFrac, hf, hmod]
  split_ifs with hc1 hc2 hc3
  · exact ⟨hlof, hfhi⟩
  · have hrpos : 0 < a % S := by linarith
    exact ⟨by linarith, Int.add_one_le_iff.mpr (hstrict hrpos)⟩
  · exact ⟨hlof, hfhi⟩
  · have hrpos : 0 < a % S := by linarith
    exact ⟨by linarith, Int.add_one_le_iff.mpr (hstrict hrpos)⟩

theorem weighted_sum_bounds (c : ℤ → ℕ) (lo hi : ℤ) (l : List ℤ)
    (h : ∀ o ∈ l, lo ≤ o ∧ o ≤ hi) :
    lo * ((l.map fun o => (c o : ℤ)).sum) ≤ (l.map fun o => (c o : ℤ) * o).sum ∧
    (l.map fun o => (c o : ℤ) * o).sum ≤ hi * ((l.map fun o => (c o : ℤ)).sum) := by
  induction l with
  | nil => simp
  | cons a t ih =>
    have ha := h a (List.mem_cons_self a t)
    obtain ⟨ih1, ih2⟩ := ih fun o ho => h o (List.mem_cons_of_mem a ho)
    simp only [List.map_cons, List.sum_cons]
    have hca : (0 : ℤ) ≤ (c a : ℤ) := Int.natCast_nonneg _
    constructor
    · have hx : lo * (c a : ℤ) ≤ (c a : ℤ) * a := by
        rw [mul_comm]
        exact mul_le_mul_of_nonneg_left ha.1 hca
      rw [mul_add]
      exact add_le_add hx ih1
    · have hx : (c a : ℤ) * a ≤ hi * (c a : ℤ) := by
        rw [mul_comm hi]
        exact mul_le_mul_of_nonneg_left ha.2 hca
      rw [mul_add]
      exact add_le_add hx ih2

theorem mem_refineOffsets {w : ℤ} {offs tsLst tsMagic : List ℤ} {o : ℤ} :
    o ∈ refineOffsets w offs tsLst tsMagic ↔
      o ∈ offs ∧ refineLo w offs tsLst tsMagic ≤ o ∧ o ≤ refineHi w offs tsLst tsMagic := by
  simp [refineOffsets, List.mem_filter, and_assoc]

theorem refineDot_bounds (w : ℤ) (offs tsLst tsMagic : List ℤ) :
    refineLo w offs tsLst tsMagic * (refineWeightSum w offs tsLst tsMagic : ℤ) ≤
      refineDot w offs tsLst tsMagic ∧
    refineDot w offs tsLst tsMagic ≤
      refineHi w offs tsLst tsMagic * (refineWeightSum w offs tsLst tsMagic : ℤ) := by
  have hcast : ((refineWeightSum w offs tsLst tsMagic : ℕ) : ℤ) =
      ((refineOffsets w offs tsLst tsMagic).map fun o =>
        (nCoincidence w o tsLst tsMagic : ℤ)).sum := by
    rw [refineWeightSum, Nat.cast_list_sum, List.map_map]
    rfl
  rw [hcast, refineDot]
  exact weighted_sum_bounds (fun o => nCoincidence w o tsLst tsMagic) _ _ _
    fun o ho => (mem_refineOffsets.mp ho).2

theorem refineLo_eq_roundQ (w : ℤ) (offs tsLst tsMagic : List ℤ)
    (h : maxOffsets w offs tsLst tsMagic ≠ []) :
    refineLo w offs tsLst tsMagic =
      roundHalfEvenQ (offsetAtMax w offs tsLst tsMagic - 2 * w) := by
  have hd : 0 < (maxOffsets w offs tsLst tsMagic).length := List.length_pos.mpr h
  have hdq : ((maxOffsets w offs tsLst tsMagic).length : ℚ) ≠ 0 := by positivity
  rw [refineLo, roundHalfEvenFrac_eq _ _ hd]
  congr 1
  rw [offsetAtMax, listMeanZ, ← Int.cast_list_sum]
  push_cast
  field_simp
  ring

theorem refineHi_eq_roundQ (w : ℤ) (offs tsLst tsMagic : List ℤ)
    (h : maxOffsets w offs tsLst tsMagic ≠ []) :
    refineHi w offs tsLst tsMagic =
      roundHalfEvenQ (offsetAtMax w offs tsLst tsMagic + 2 * w) := by
  have hd : 0 < (maxOffsets w offs tsLst tsMagic).length := List.length_pos.mpr h
  have hdq : ((maxOffsets w offs tsLst tsMagic).length : ℚ) ≠ 0 := by positivity
  rw [refineHi, roundHalfEvenFrac_eq _ _ hd]
  congr 1
  rw [offsetAtMax, listMeanZ, ← Int.cast_list_sum]
  push_cast
  field_simp

/-- C4 counterexample: with window 7 ns, one primary event at 0 and
secondary events at 0, 100, …, 500 and 700, seven offsets tie at the
maximum, `offset_at_max = 2200/7 ≈ 314.29`, and the exact closed
neighbourhood `[2102/7, 2298/7] ≈ [300.29, 328.29]` contains no grid
offset — yet the refiner averages over the offset 300, because the code
rounds the neighbourhood edges with `np.round` before comparing. -/
theorem refine_neighborhood_counterexample :
    (300 : ℤ) ∈ refineOffsets 7 (timeOffsets 0 800) [0] [0, 100, 200, 300, 400, 500, 700] ∧
    ¬ (offsetAtMax 7 (timeOffsets 0 800) [0] [0, 100, 200, 300, 400, 500, 700] - 2 * 7 ≤
        (300 : ℚ)) := by
  refine ⟨by decide, ?_⟩
  have h : maxOffsets 7 (timeOffsets 0 800) [0] [0, 100, 200, 300, 400, 500, 700] =
      [0, 100, 200, 300, 400, 500, 700] := by decide
  rw [offsetAtMax, h, listMeanZ]
  norm_num

/-- C4 amended: the averaging neighbourhood consists of the candidate
offsets `o` with `round(offset_at_max - 2w) ≤ o ≤
round(offset_at_max + 2w)` (both edges rounded half to even by
`np.round`), not of the exact closed interval; the refined offset is the
count-weighted mean of those offsets rounded half to even; and the
pipeline re-runs the edge-inclusive matching once, at this single
refined offset, to obtain the definitive rows. -/
theorem refiner_rounded_neighborhood (w : ℤ) (offs tsLst tsMagic : List ℤ)
    (hmax : maxOffsets w offs tsLst tsMagic ≠ [])
    (hws : refineWeightSum w offs tsLst tsMagic ≠ 0) :
    (∀ o : ℤ, o ∈ refineOffsets w offs tsLst tsMagic ↔
      o ∈ offs ∧
        roundHalfEvenQ (offsetAtMax w offs tsLst tsMagic - 2 * w) ≤ o ∧
        o ≤ roundHalfEvenQ (offsetAtMax w offs tsLst tsMagic + 2 * w)) ∧
    refinedOffset w offs tsLst tsMagic =
      roundHalfEvenQ
        (((refineOffsets w offs tsLst tsMagic).map fun o : ℤ =>
            (nCoincidence w o tsLst tsMagic : ℚ) * (o : ℚ)).sum /
          (refineWeightSum w offs tsLst tsMagic : ℚ)) ∧
    ∀ (start stop telId : ℤ) (lst : List LstEvent) (magic : List MagicEvent),
      lst ≠ [] → timeOffsets start stop ≠ [] →
      (magic.filter fun e2 =>
        prefilterKeep w (lst.map LstEvent.time) (timeOffsets start stop) e2.time) ≠ [] →
      maxCount w (timeOffsets start stop) (lst.map LstEvent.time)
        ((magic.filter fun e2 =>
          prefilterKeep w (lst.map LstEvent.time) (timeOffsets start stop) e2.time).map
            MagicEvent.time) ≠ 0 →
      refineWeightSum w (timeOffsets start stop) (lst.map LstEvent.time)
        ((magic.filter fun e2 =>
          prefilterKeep w (lst.map LstEvent.time) (timeOffsets start stop) e2.time).map
            MagicEvent.time) ≠ 0 →
      processTel w start stop lst telId magic =
        .rows
          (lstRows w
            (refinedOffset w (timeOffsets start stop) (lst.map LstEvent.time)
              ((magic.filter fun e2 =>
                prefilterKeep w (lst.map LstEvent.time) (timeOffsets start stop) e2.time).map
                  MagicEvent.time))
            lst
            (magic.filter fun e2 =>
              prefilterKeep w (lst.map LstEvent.time) (timeOffsets start stop) e2.time) ++
           magicRows w
            (refinedOffset w (timeOffsets start stop) (lst.map LstEvent.time)
              ((magic.filter fun e2 =>
                prefilterKeep w (lst.map LstEvent.time) (timeOffsets start stop) e2.time).map
                  MagicEvent.time))
            telId lst
            (magic.filter fun e2 =>
              prefilterKeep w (lst.map LstEvent.time) (timeOffsets start stop) e2.time)) := by
  refine ⟨?_, ?_, ?_⟩
  · intro o
    rw [mem_refineOffsets, refineLo_eq_roundQ w offs tsLst tsMagic hmax,
      refineHi_eq_roundQ w offs tsLst tsMagic hmax]
  · rw [refinedOffset, roundHalfEvenFrac_eq _ _ (Nat.pos_of_ne_zero hws)]
    congr 1
    rw [refineDot, Int.cast_list_sum, List.map_map]
    have hmap : List.map (Int.cast ∘ fun o : ℤ => (nCoincidence w o tsLst tsMagic : ℤ) * o)
        (refineOffsets w offs tsLst tsMagic) =
        List.map (fun o : ℤ => (nCoincidence w o tsLst tsMagic : ℚ) * (o : ℚ))
          (refineOffsets w offs tsLst tsMagic) :=
      List.map_congr_left fun o _ => by
        simp only [Function.comp_apply]
        push_cast
        rfl
    rw [hmap]
  · intro start stop telId lst magic h1 h2 h3 h4 h5
    rw [processTel]
    rw [if_neg (by simp [List.isEmpty_iff, h1, h2])]
    rw [if_neg (by simp [List.isEmpty_iff, h3])]
    rw [if_neg h4, if_neg h5]

/-- Closed instance of `refiner_rounded_neighborhood` at a scan with a
single candidate offset. -/
theorem refiner_rounded_neighborhood_witness :
    (0 : ℤ) ∈ refineOffsets 300 (timeOffsets 0 100) [0] [5] ↔
      (0 : ℤ) ∈ timeOffsets 0 100 ∧
        roundHalfEvenQ (offsetAtMax 300 (timeOffsets 0 100) [0] [5] - 2 * 300) ≤ 0 ∧
        (0 : ℤ) ≤ roundHalfEvenQ (offsetAtMax 300 (timeOffsets 0 100) [0] [5] + 2 * 300) :=
  (refiner_rounded_neighborhood 300 (timeOffsets 0 100) [0] [5] (by decide) (by decide)).1 0

/-- C6 counterexample: one primary event at 0, five secondary events at
-300 and seven at +300, window 300 ns, scan grid [-1000, 1000).  The
unique maximizing offset is 0 with 12 of 12 events matched, but the
weighted average pulls the refined offset to 50, where only 7 of the 12
candidate events match: the match fraction strictly decreases. -/
theorem refinement_fraction_counterexample :
    offsetAtMax 300 (timeOffsets (-1000) 1000) [0]
      [-300, -300, -300, -300, -300, 300, 300, 300, 300, 300, 300, 300] = 0 ∧
    refinedOffset 300 (timeOffsets (-1000) 1000) [0]
      [-300, -300, -300, -300, -300, 300, 300, 300, 300, 300, 300, 300] = 50 ∧
    (prefilter 300 [0] (timeOffsets (-1000) 1000)
      [-300, -300, -300, -300, -300, 300, 300, 300, 300, 300, 300, 300]).length = 12 ∧
    nCoincidence 300 50 [0]
      [-300, -300, -300, -300, -300, 300, 300, 300, 300, 300, 300, 300] = 7 ∧
    nCoincidence 300 0 [0]
      [-300, -300, -300, -300, -300, 300, 300, 300, 300, 300, 300, 300] = 12 ∧
    ((7 : ℚ) / 12 < (12 : ℚ) / 12) := by
  refine ⟨?_, by decide, by decide, by decide, by decide, by norm_num⟩
  have h : maxOffsets 300 (timeOffsets (-1000) 1000) [0]
      [-300, -300, -300, -300, -300, 300, 300, 300, 300, 300, 300, 300] = [0] := by decide
  rw [offsetAtMax, h, listMeanZ]
  norm_num

/-- C6 amended: no monotone-improvement guarantee holds (see the
counterexample); what the refiner does guarantee is that the refined
offset stays inside the rounded averaging neighbourhood
`[round(offset_at_max - 2w), round(offset_at_max + 2w)]` whenever the
neighbourhood's total weight is nonzero. -/
theorem refined_offset_in_neighborhood (w : ℤ) (offs tsLst tsMagic : List ℤ)
    (h : refineWeightSum w offs tsLst tsMagic ≠ 0) :
    refineLo w offs tsLst tsMagic ≤ refinedOffset w offs tsLst tsMagic ∧
    refinedOffset w offs tsLst tsMagic ≤ refineHi w offs tsLst tsMagic := by
  have hS : (0 : ℤ) < (refineWeightSum w offs tsLst tsMagic : ℤ) := by
    exact_mod_cast Nat.pos_of_ne_zero h
  obtain ⟨h1, h2⟩ := refineDot_bounds w offs tsLst tsMagic
  exact roundHalfEvenFrac_bounds _ _ _ _ hS h1 h2

/-- Closed instance of `refined_offset_in_neighborhood` on the
counterexample data: the refined offset 50 lies in [-600, 600]. -/
theorem refined_offset_in_neighborhood_witness :
    refineLo 300 (timeOffsets (-1000) 1000) [0]
        [-300, -300, -300, -300, -300, 300, 300, 300, 300, 300, 300, 300] ≤
      refinedOffset 300 (timeOffsets (-1000) 1000) [0]
        [-300, -300, -300, -300, -300, 300, 300, 300, 300, 300, 300, 300] ∧
    refinedOffset 300 (timeOffsets (-1000) 1000) [0]
        [-300, -300, -300, -300, -300, 300, 300, 300, 300, 300, 300, 300] ≤
      refineHi 300 (timeOffsets (-1000) 1000) [0]
        [-300, -300, -300, -300, -300, 300, 300, 300, 300, 300, 300, 300] :=
  refined_offset_in_neighborhood 300 (timeOffsets (-1000) 1000) [0]
    [-300, -300, -300, -300, -300, 300, 300, 300, 300, 300, 300, 300] (by decide)

set_option maxRecDepth 8000 in
/-- C10 counterexample: one primary event at 0, secondary events at 0
and 10000, window 300 ns, scan grid [0, 10100).  The maximal count is 1,
attained in two distant clusters (offsets 0–300 and 9700–10000); their
mean 5000 centres the averaging neighbourhood [4400, 5600] on offsets
whose counts are all zero, so the total weight is zero and `np.average`
raises `ZeroDivisionError` — the error branch is reachable. -/
theorem refine_zero_weight_counterexample :
    maxCount 300 (timeOffsets 0 10100) [0] [0, 10000] ≠ 0 ∧
    refineWeightSum 300 (timeOffsets 0 10100) [0] [0, 10000] = 0 ∧
    processTel 300 0 10100 [⟨1, 1, 0⟩] 2 [⟨5, 1, 0⟩, ⟨5, 2, 10000⟩] = .crash := by
  exact ⟨by decide, by decide, by decide⟩

/-- C10 amended: when exactly one offset attains the (nonzero) maximal
count and the window is nonnegative, that offset itself lies in the
averaging neighbourhood, so the total weight is nonzero and the
weighted average is well defined; with several maximizing offsets the
zero-weight error branch is reachable (see the counterexample). -/
theorem unique_max_positive_weight (w : ℤ) (offs tsLst tsMagic : List ℤ) (o : ℤ)
    (hw : 0 ≤ w) (huniq : maxOffsets w offs tsLst tsMagic = [o])
    (hpos : maxCount w offs tsLst tsMagic ≠ 0) :
    refineWeightSum w offs tsLst tsMagic ≠ 0 := by
  have homem : o ∈ maxOffsets w offs tsLst tsMagic := by
    rw [huniq]
    exact List.mem_singleton_self o
  obtain ⟨hoffs, hdec⟩ := List.mem_filter.mp homem
  have hco : nCoincidence w o tsLst tsMagic = maxCount w offs tsLst tsMagic :=
    of_decide_eq_true hdec
  have hlo : refineLo w offs tsLst tsMagic = o - 2 * w := by
    rw [refineLo, huniq]
    simp only [List.sum_cons, List.sum_nil, List.length_cons, List.length_nil,
      add_zero, Nat.cast_one, mul_one, Nat.cast_zero, zero_add]
    exact roundHalfEvenFrac_one _
  have hhi : refineHi w offs tsLst tsMagic = o + 2 * w := by
    rw [refineHi, huniq]
    simp only [List.sum_cons, List.sum_nil, List.length_cons, List.length_nil,
      add_zero, Nat.cast_one, mul_one, Nat.cast_zero, zero_add]
    exact roundHalfEvenFrac_one _
  have hmem : o ∈ refineOffsets w offs tsLst tsMagic := by
    rw [mem_refineOffsets, hlo, hhi]
    exact ⟨hoffs, by omega, by omega⟩
  intro hzero
  have hle : nCoincidence w o tsLst tsMagic ≤ refineWeightSum w offs tsLst tsMagic := by
    rw [refineWeightSum]
    exact List.single_le_sum (fun x _ => Nat.zero_le x) _ (List.mem_map_of_mem _ hmem)
  omega

/-- Closed instance of `unique_max_positive_weight` on the data of the
C6 counterexample, where the offset 0 is the unique maximizer. -/
theorem unique_max_positive_weight_witness :
    refineWeightSum 300 (timeOffsets (-1000) 1000) [0]
      [-300, -300, -300, -300, -300, 300, 300, 300, 300, 300, 300, 300] ≠ 0 :=
  unique_max_positive_weight 300 (timeOffsets (-1000) 1000) [0]
    [-300, -300, -300, -300, -300, 300, 300, 300, 300, 300, 300, 300] 0
    (by decide) (by decide) (by decide)

theorem processTel_rows_shape {w start stop telId : ℤ} {lst : List LstEvent}
    {magic : List MagicEvent} {rs : List Row}
    (h : processTel w start stop lst telId magic = .rows rs) :
    ∃ o : ℤ,
      rs = lstRows w o lst (magic.filter fun e2 =>
          prefilterKeep w (lst.map LstEvent.time) (timeOffsets start stop) e2.time) ++
        magicRows w o telId lst (magic.filter fun e2 =>
          prefilterKeep w (lst.map LstEvent.time) (timeOffsets start stop) e2.time) := by
  rw [processTel] at h
  split_ifs at h
  injection h with h1
  exact ⟨_, h1.symm⟩

theorem mergedRows_link {w start stop : ℤ} {lst : List LstEvent}
    {tels : List (ℤ × List MagicEvent)} {x : Row}
    (hx : x ∈ mergedRows w start stop lst tels) :
    x.obsIdLst = none ↔ x.eventIdLst = none := by
  rw [mergedRows] at hx
  obtain ⟨t, ht, hxt⟩ := List.mem_flatMap.mp hx
  rcases hp : processTel w start stop lst t.1 t.2 with _ | _ | _ | rs <;> rw [hp] at hxt
  · simp at hxt
  · simp at hxt
  · simp at hxt
  · simp only at hxt
    obtain ⟨o, hshape⟩ := processTel_rows_shape hp
    subst hshape
    rcases List.mem_append.mp hxt with hl | hm
    · obtain ⟨p, _, rfl⟩ := List.mem_map.mp hl
      simp
    · obtain ⟨e2, _, hx2⟩ := List.mem_map.mp hm
      rcases hlm : lastLstMatch w o lst e2 with _ | e1 <;> rw [hlm] at hx2 <;> subst hx2 <;> simp

/-- C9: if every telescope is skipped (no secondary events in the
primary window, or no coincidences at any offset), the merged table is
empty and the run ends in the clean `sys.exit()` branch — exit status 0,
no output file written, no exception raised. -/
theorem empty_merged_table_clean_exit (w start stop : ℤ) (lst : List LstEvent)
    (tels : List (ℤ × List MagicEvent))
    (h : ∀ t ∈ tels,
      processTel w start stop lst t.1 t.2 = .skipNoOverlap ∨
      processTel w start stop lst t.1 t.2 = .skipNoCoincidence) :
    mergedRows w start stop lst tels = [] ∧
    runCoincidence w start stop lst tels = .noCoincidence := by
  have hmerge : mergedRows w start stop lst tels = [] := by
    rw [mergedRows, List.flatMap_eq_nil_iff]
    intro t ht
    rcases h t ht with hs | hs <;> rw [hs]
  have hany : (tels.any fun t =>
      decide (processTel w start stop lst t.1 t.2 = TelOutcome.crash)) = false := by
    rw [List.any_eq_false]
    intro t ht
    rcases h t ht with hs | hs <;> simp [hs]
  refine ⟨hmerge, ?_⟩
  rw [runCoincidence, hany]
  simp [hmerge]

/-- Closed instance of `empty_merged_table_clean_exit`: disjoint streams
(the only secondary event is one second away from the primary one) give
an empty merged table and a clean exit with no output. -/
theorem empty_merged_table_clean_exit_witness :
    mergedRows 300 (-10000) 10000 [⟨1, 10, 0⟩] [(2, [⟨5, 7, 1000000000⟩])] = [] ∧
    runCoincidence 300 (-10000) 10000 [⟨1, 10, 0⟩] [(2, [⟨5, 7, 1000000000⟩])] =
      .noCoincidence :=
  empty_merged_table_clean_exit 300 (-10000) 10000 [⟨1, 10, 0⟩]
    [(2, [⟨5, 7, 1000000000⟩])] (by decide)

/-- C7: the resolved key of every row is computed by grouping on the
secondary (run, event) pair and averaging the cross-referenced primary
identifiers of the group, skipping missing values; a group with no
primary match at all yields the missing value, which is replaced by the
row's own secondary pair, so every row gets exactly one resolved key;
rows produced by the pipeline always carry both primary identifiers or
neither. -/
theorem resolution_rule (rows : List Row) (r : Row) :
    (∀ x : Row, x ∈ groupOf rows r ↔
      x ∈ rows ∧ x.obsIdMagic = r.obsIdMagic ∧ x.eventIdMagic = r.eventIdMagic) ∧
    ((groupOf rows r).filterMap Row.obsIdLst = [] ↔
      ∀ x ∈ groupOf rows r, x.obsIdLst = none) ∧
    ((groupOf rows r).filterMap Row.obsIdLst = [] →
      (resolveRow rows r).obsId = r.obsIdMagic ∧
      (resolveRow rows r).eventId = r.eventIdMagic ∧
      (resolveRow rows r).telId = r.telId) ∧
    ((groupOf rows r).filterMap Row.obsIdLst ≠ [] →
      (resolveRow rows r).obsId = listMeanZ ((groupOf rows r).filterMap Row.obsIdLst) ∧
      (resolveRow rows r).eventId = listMeanZ ((groupOf rows r).filterMap Row.eventIdLst) ∧
      (resolveRow rows r).telId = r.telId) ∧
    ∀ (w start stop : ℤ) (lst : List LstEvent) (tels : List (ℤ × List MagicEvent)),
      ∀ x ∈ mergedRows w start stop lst tels, (x.obsIdLst = none ↔ x.eventIdLst = none) := by
  refine ⟨?_, ?_, ?_, ?_, ?_⟩
  · intro x
    simp [groupOf, List.mem_filter, and_assoc]
  · exact List.filterMap_eq_nil_iff
  · intro h
    have hcnt : groupObsCnt (groupOf rows r) = 0 := by
      rw [groupObsCnt, h]
      rfl
    rw [resolveRow, if_pos hcnt]
    refine ⟨?_, ?_, rfl⟩ <;> simp [FinalRow.obsId, FinalRow.eventId]
  · intro h
    have hcnt : groupObsCnt (groupOf rows r) ≠ 0 := by
      rw [groupObsCnt]
      exact fun hz => h (List.length_eq_zero.mp hz)
    rw [resolveRow, if_neg hcnt]
    refine ⟨?_, ?_, rfl⟩
    · rw [FinalRow.obsId, listMeanZ, ← Int.cast_list_sum]
      rfl
    · rw [FinalRow.eventId, listMeanZ, ← Int.cast_list_sum]
      rfl
  · intro w start stop lst tels x hx
    exact mergedRows_link hx

/-- Closed instance of `resolution_rule` on three merged rows sharing
one secondary (run, event) pair: the resolved run identifier is the
group mean of the cross-referenced primary run identifiers. -/
theorem resolution_rule_witness :
    (resolveRow
        [⟨5, 7, 1, some 1, some 10, 0⟩, ⟨5, 7, 1, some 1, some 20, 100⟩,
          ⟨5, 7, 2, some 1, some 20, 50⟩]
        ⟨5, 7, 2, some 1, some 20, 50⟩).obsId =
      listMeanZ
        ((groupOf
            [⟨5, 7, 1, some 1, some 10, 0⟩, ⟨5, 7, 1, some 1, some 20, 100⟩,
              ⟨5, 7, 2, some 1, some 20, 50⟩]
            ⟨5, 7, 2, some 1, some 20, 50⟩).filterMap Row.obsIdLst) :=
  ((resolution_rule
      [⟨5, 7, 1, some 1, some 10, 0⟩, ⟨5, 7, 1, some 1, some 20, 100⟩,
        ⟨5, 7, 2, some 1, some 20, 50⟩]
      ⟨5, 7, 2, some 1, some 20, 50⟩).2.2.2.1 (by decide)).1

theorem dedupByCols_pairwise (rows : List Row) :
    (dedupByCols rows).Pairwise fun a b => a.cols ≠ b.cols := by
  suffices h : ∀ acc : List Row, acc.Pairwise (fun a b => a.cols ≠ b.cols) →
      (rows.foldl
        (fun acc r =>
          if acc.any fun x => decide (x.cols = r.cols) then acc else acc ++ [r])
        acc).Pairwise fun a b => a.cols ≠ b.cols by
    exact h [] List.Pairwise.nil
  induction rows with
  | nil => exact fun acc hacc => hacc
  | cons r t ih =>
    intro acc hacc
    rw [List.foldl_cons]
    apply ih
    by_cases hc : (acc.any fun x => decide (x.cols = r.cols)) = true
    · rw [if_pos hc]
      exact hacc
    · rw [if_neg hc]
      refine List.pairwise_append.mpr ⟨hacc, List.pairwise_singleton _ _, ?_⟩
      intro a ha b hb
      rw [List.mem_singleton] at hb
      subst hb
      simp only [List.any_eq_true, not_exists, not_and, decide_eq_true_eq] at hc
      push_neg at hc
      exact hc a ha

/-- C8 amended: deduplication removes exact duplicates — no two rows of
the deduplicated table agree in all data columns — and a primary event
coincident with both telescopes of the secondary pair appears exactly
once per telescope, never as doubled primary content; the triple
(resolved run, resolved event, telescope) however need not be unique
(see the counterexample, where one secondary event matched by two
primary events yields two telescope-1 rows with one resolved key). -/
theorem dedup_no_exact_duplicates :
    (∀ rows : List Row, (dedupByCols rows).Pairwise fun a b => a.cols ≠ b.cols) ∧
    finalTable (mergedRows 300 0 100 [⟨1, 10, 0⟩] [(2, [⟨5, 7, 5⟩]), (3, [⟨5, 7, 10⟩])]) =
      [⟨3, 3, 30, 3, 1, some 1, some 10, 0⟩, ⟨3, 3, 30, 3, 2, some 1, some 10, 5⟩,
       ⟨3, 3, 30, 3, 3, some 1, some 10, 10⟩] :=
  ⟨dedupByCols_pairwise, by decide⟩

/-- C8 counterexample: two primary events (event ids 10 and 20, 100 ns
apart) both match the single secondary event (5, 7); the final table
holds two telescope-1 rows whose resolved keys coincide (both are
(1, 50/3)), so (resolved run, resolved event, telescope id) is not
unique over the output rows. -/
theorem resolved_triple_not_unique :
    ¬ (finalTable (mergedRows 300 0 100 [⟨1, 10, 0⟩, ⟨1, 20, 100⟩]
        [(2, [⟨5, 7, 50⟩])])).Pairwise
      fun a b => ¬ (a.obsId = b.obsId ∧ a.eventId = b.eventId ∧ a.telId = b.telId) := by
  intro hp
  have h : finalTable (mergedRows 300 0 100 [⟨1, 10, 0⟩, ⟨1, 20, 100⟩] [(2, [⟨5, 7, 50⟩])]) =
      [⟨3, 3, 50, 3, 1, some 1, some 10, 0⟩, ⟨3, 3, 50, 3, 1, some 1, some 20, 100⟩,
       ⟨3, 3, 50, 3, 2, some 1, some 20, 50⟩] := by decide
  rw [h] at hp
  rcases List.pairwise_cons.mp hp with ⟨h1, _⟩
  exact h1 _ (List.mem_cons_self _ _) ⟨rfl, rfl, rfl⟩

end EventCoincidence
